import Mathlib

/-!
# Verification of the AECO-Launcher patch reconciliation core

Shallow embedding of `src/patcher/worker.rs` (plus the helpers in
`src/patcher/download.rs` / `src/patcher/utils.rs`) of the AECO-Launcher
repository, together with theorems settling the frozen claims about it.

Modelling conventions:

* A filesystem path (`PathBuf`) is a list of path components (`RPath`);
  `self_dir.join(name)` is `dirs ++ [name]`.  Components are ordinary
  names (the degenerate `"."` / `".."` components never arise for the
  paths the worker builds from manifest names).
* A URL is likewise a list of segments (`Url`); `reqwest::Url::join` of a
  plain segment is modelled as total since it cannot fail on the segment
  strings the worker produces.
* Side effects (downloads, file writes, archive mutation, copies,
  removals, sleeps, process spawns) are recorded as an explicit event
  list; each function returns its events together with an
  `Except String` result mirroring `Result<_, String>` in the source.
  An event is recorded for an *attempted* operation; the environment
  (`FileEnv`, `SelfEnv`, `ZipEnv`) says whether the attempt succeeds,
  mirroring the fallible `std::fs` calls.
* The GUI progress/error message channel is out of scope (spec §1); the
  `Downloading`/`PatchStatus` messages are modelled only where a claim
  needs them (`start_game` / the `Play` branch of the main loop), with
  the `f32` progress component dropped.
* Digests are opaque (spec §6): the digest of the bytes a path holds on
  disk, or an archive member holds, is provided directly by the
  environment; `File::new(name, data).digest` from the out-of-scope
  `aeco_patch_config` crate is thereby treated as an oracle, and digest
  comparison is equality on `Nat`, matching the byte-equality the source
  uses.
-/

/-- A filesystem path, as its list of components. -/
abbrev RPath := List String

/-- A URL, as its list of segments. -/
abbrev Url := List String

/-- `const UPDATE_FILE_EXTENSION: &str = "aecoupdate";` (worker.rs line 12). -/
def UPDATE_FILE_EXTENSION : String := "aecoupdate"

/-- Observable side effects of the worker, in program order.  `fsWrite` is an
attempted `std::fs::write` (or `File::create` + copy) to a path, `fsRename` an
attempted rename (never performed by the source, but present so that the
atomic-write claim is expressible), `copyFile` an attempted `std::fs::copy`,
`sleep` a `std::thread::sleep` in milliseconds, `spawn` a detached
`subprocess::Popen::create`, and `addFile`/`finalize`/`defrag` the archive
library mutations keyed by the archive's `.hed` path. -/
inductive Ev where
  | download (url : Url)
  | fsWrite (p : RPath)
  | fsRename (src dst : RPath)
  | copyFile (src dst : RPath)
  | removeFile (p : RPath)
  | createDir (p : RPath)
  | addFile (hed : RPath) (member : String)
  | finalize (hed : RPath)
  | defrag (hed : RPath)
  | sleep (ms : Nat)
  | spawn (p : RPath)
deriving DecidableEq, Repr

/-! ## Rust `Path` file-name/extension semantics

`Path::extension`, `Path::file_stem` and `Path::set_extension` act on the last
component by splitting it at its last `.`; there is no extension when the
component has no dot, when the only part before the last dot is empty (hidden
files such as `.bashrc`), or when the component is literally `..`. -/

/-- Split a component at its last dot: `some (before, after)` when a dot
exists, `none` otherwise. -/
def splitAtLastDot : List Char → Option (List Char × List Char)
  | [] => none
  | c :: rest =>
    match splitAtLastDot rest with
    | some (b, a) => some (c :: b, a)
    | none => if c = '.' then some ([], rest) else none

/-- Rust `Path::extension` restricted to a single file-name component. -/
def rustExtension (name : String) : Option String :=
  if name = ".." then none
  else
    match splitAtLastDot name.data with
    | none => none
    | some (before, after) => if before = [] then none else some (String.mk after)

/-- Rust `Path::file_stem` restricted to a single file-name component. -/
def rustFileStem (name : String) : String :=
  if name = ".." then name
  else
    match splitAtLastDot name.data with
    | none => name
    | some (before, _) => if before = [] then name else String.mk before

/-- Rust `Path::set_extension(ext)` with a nonempty `ext`, restricted to a
single file-name component: the stem with the new extension. -/
def rustWithExtension (name ext : String) : String :=
  rustFileStem name ++ "." ++ ext

/-- Rust `self.self_exe.extension()`: the extension of the path's file name,
`none` when there is no file name. -/
def pathExtension (p : RPath) : Option String :=
  match p.getLast? with
  | none => none
  | some n => rustExtension n

/-- Rust `path.set_extension("")` on the whole path: the file name is replaced
by its stem (worker.rs lines 759-763); a path without file name is unchanged. -/
def pathSetExtensionEmpty (p : RPath) : RPath :=
  match p.getLast? with
  | none => p
  | some n => p.dropLast ++ [rustFileStem n]

/-! ## Worker identity -/

/-- The fields of `PatchWorker` the reconciliation core reads: `self_exe`,
its parent `self_dir`, and the resolved patch-root URL.  Channels, the HTTP
client and the runtime are effect carriers captured by the environments. -/
structure Worker where
  selfExe : RPath
  selfDir : RPath
  patchUrl : Url

/-- `get_self_aecoupdate_path` (worker.rs lines 817-826): the running binary's
file name with `.aecoupdate` appended, beside the binary.  Fails when the path
has no file name.  (The UTF-8 `to_str` failure cannot arise in the model, where
components are already strings.) -/
def get_self_aecoupdate_path (w : Worker) : Except String RPath :=
  match w.selfExe.getLast? with
  | none => Except.error "Failed to get launcher file name"
  | some current_name =>
    Except.ok (w.selfExe.dropLast ++ [current_name ++ "." ++ UPDATE_FILE_EXTENSION])

/-! ## Sidecar cleanup (`check_patcher_aecoupdate`) -/

/-- Environment for the sidecar-cleanup protocol: whether the `retry`-th
`std::fs::copy` / `std::fs::remove_file` attempt succeeds, whether a spawn
succeeds, and which paths exist. -/
structure SelfEnv where
  copyOk : Nat → Bool
  removeOk : Nat → Bool
  spawnOk : RPath → Bool
  fexists : RPath → Bool

/-- The `for retry in 1..=retries` loops of worker.rs (lines 768-779 and
800-811): attempt the operation; on failure at the final retry fail with
`errMsg`, otherwise sleep 250 ms and try again.  `fuel` counts the remaining
iterations, so the current attempt number is `retries + 1 - fuel`; both source
loops run it with `retries = fuel = 5`. -/
def retryLoop (ok : Nat → Bool) (ev : Ev) (errMsg : String) (retries : Nat) :
    Nat → List Ev × Except String Unit
  | 0 => ([], Except.ok ())
  | fuel + 1 =>
    let retry := retries + 1 - (fuel + 1)
    if ok retry then ([ev], Except.ok ())
    else if retry = retries then ([ev], Except.error errMsg)
    else
      let (evs, r) := retryLoop ok ev errMsg retries fuel
      (ev :: Ev.sleep 250 :: evs, r)

/-- `remove_aecoupdate_file` (worker.rs lines 795-815): if the sidecar path
exists, remove it with up to 5 attempts at 250 ms spacing, failing the routine
after the 5th failure. -/
def remove_aecoupdate_file (env : SelfEnv) (w : Worker) : List Ev × Except String Unit :=
  match get_self_aecoupdate_path w with
  | Except.error e => ([], Except.error e)
  | Except.ok path =>
    if env.fexists path then
      retryLoop env.removeOk (Ev.removeFile path) "Failed to remove temporary launcher." 5 5
    else
      ([], Except.ok ())

/-- Outcome of `check_patcher_aecoupdate`: the routine proceeds (`Ok(())`),
the process exits via `std::process::exit`, or the routine fails (`Err`). -/
inductive SelfCheckResult where
  | proceeds
  | exited (code : Nat)
  | failed (msg : String)
deriving DecidableEq, Repr

/-- `check_patcher_aecoupdate` (worker.rs lines 739-793).  No extension on the
running binary: remove a stale sidecar and proceed.  An extension other than
`aecoupdate`: proceed immediately.  Extension `aecoupdate`: strip the last
extension to obtain the restore target, copy `self_exe` over it with up to 5
attempts at 250 ms spacing (failing after the 5th), then spawn the target
detached and exit with code 0 (or fail if the spawn fails). -/
def check_patcher_aecoupdate (env : SelfEnv) (w : Worker) : List Ev × SelfCheckResult :=
  match pathExtension w.selfExe with
  | none =>
    match remove_aecoupdate_file env w with
    | (evs, Except.ok _) => (evs, SelfCheckResult.proceeds)
    | (evs, Except.error e) => (evs, SelfCheckResult.failed e)
  | some ext =>
    if ext ≠ UPDATE_FILE_EXTENSION then ([], SelfCheckResult.proceeds)
    else
      let new_file_path := pathSetExtensionEmpty w.selfExe
      match retryLoop env.copyOk (Ev.copyFile w.selfExe new_file_path)
          "Failed to overwrite patcher" 5 5 with
      | (evs, Except.error e) => (evs, SelfCheckResult.failed e)
      | (evs, Except.ok _) =>
        if env.spawnOk new_file_path then
          (evs ++ [Ev.spawn new_file_path], SelfCheckResult.exited 0)
        else
          (evs ++ [Ev.spawn new_file_path],
           SelfCheckResult.failed "Could not start overwritten launcher")

/-- The event trace of `n` attempts of the same retried operation: attempts
separated by the 250 ms sleep, with no sleep after the last one. -/
def attemptEvents (ev : Ev) : Nat → List Ev
  | 0 => []
  | 1 => [ev]
  | n + 2 => ev :: Ev.sleep 250 :: attemptEvents ev (n + 1)

/-! ## Game launch and the `Play` branch of the main loop -/

/-- `PatchStatus` (crate::message), as consumed by `send_status`. -/
inductive PatchStatus where
  | working
  | finished
  | errorStatus
  | gameLaunched
deriving DecidableEq, Repr

/-- Outbound GUI messages (crate::message::PatchMessage), with the `f32`
progress component of `Downloading` dropped. -/
inductive GMsg where
  | connecting (text : String)
  | downloading (text : String)
  | errorMsg (text : String)
  | patchStatus (st : PatchStatus)
deriving DecidableEq, Repr

/-- `start_game` (worker.rs lines 733-737): sends one `Downloading` message
and unconditionally returns `Ok(())`. -/
def start_game : List GMsg × Except String Unit :=
  ([GMsg.downloading "Let's play the game!"], Except.ok ())

/-- The `GUIMessage::Play` arm of `main_loop` (worker.rs lines 126-139): on
`Ok` from `start_game`, sleep 3 s, report `GameLaunched` and terminate the
worker loop (`true`); on `Err`, report `Error` and stay in the loop
(`false`). -/
def handle_play : List Ev × List GMsg × Bool :=
  match start_game with
  | (msgs, Except.ok _) =>
    ([Ev.sleep 3000], msgs ++ [GMsg.patchStatus PatchStatus.gameLaunched], true)
  | (msgs, Except.error _) =>
    ([], msgs ++ [GMsg.patchStatus PatchStatus.errorStatus], false)

/-! ## Manifest model (`aeco_patch_config::fsobject`, spec §3/§6) -/

/-- `File { name, digest }`: a manifest file leaf, the digest opaque. -/
structure MFile where
  name : String
  digest : Nat
deriving DecidableEq, Repr

/-- `FSObject`: the tagged sum of manifest children.  `archive` carries its
member list (`Archive { name, files }`). -/
inductive FSObject where
  | file (f : MFile)
  | directory (name : String) (children : List FSObject)
  | archive (name : String) (files : List MFile)

/-- `Directory { name, children }`. -/
structure Directory where
  name : String
  children : List FSObject

/-- `subdir_by_name` (worker.rs lines 830-839): the first Directory child with
the given name. -/
def subdir_by_name (dir : Directory) (name : String) : Option Directory :=
  go dir.children
where go : List FSObject → Option Directory
  | [] => none
  | FSObject.directory n cs :: rest =>
    if n = name then some ⟨n, cs⟩ else go rest
  | _ :: rest => go rest

/-- Leaf count of a child list, File leaves counting 1 and Archive leaves
their member count (worker.rs lines 852-858). -/
def totalFilesAux : List FSObject → Nat
  | [] => 0
  | FSObject.file _ :: rest => 1 + totalFilesAux rest
  | FSObject.directory _ cs :: rest => totalFilesAux cs + totalFilesAux rest
  | FSObject.archive _ fs :: rest => fs.length + totalFilesAux rest

/-- `get_total_files_in_patch` (worker.rs lines 849-861). -/
def get_total_files_in_patch (d : Directory) : Nat :=
  totalFilesAux d.children

/-! ## Reconciler environment -/

/-- Result of `disk_archive.get_file(name)` (worker.rs lines 661-675): member
present with some digest, `FileNotPresentError`, or any other read error. -/
inductive MemberLookup where
  | found (digest : Nat)
  | absent
  | readErr
deriving DecidableEq, Repr

/-- Environment of the reconciler walk: which paths exist, whether reads,
downloads and writes succeed, the digest of on-disk bytes, and the archive
library's behaviour (`open_pair dat hed`, member lookup and mutation keyed by
the `.hed` path). -/
structure FileEnv where
  fexists : RPath → Bool
  readOk : RPath → Bool
  diskDigest : RPath → Nat
  downloadOk : Url → Bool
  writeOk : RPath → Bool
  openOk : RPath → RPath → Bool
  memberState : RPath → String → MemberLookup
  addOk : RPath → String → Bool
  finalizeOk : RPath → Bool
  defragOk : RPath → Bool

/-- `download_patched_file` (worker.rs lines 707-731): a GET recorded as a
`download` event, failing on transport/status errors. -/
def download_patched_file (env : FileEnv) (net_file : Url) : List Ev × Except String Unit :=
  ([Ev.download net_file],
   if env.downloadOk net_file then Except.ok () else Except.error "Failed to get patched file")

/-! ## Per-file check (`check_patches_file`, worker.rs lines 565-627)

The progress-message parameters `platform` and `total_files` feed only the
dropped GUI channel and are omitted.  The returned pair is the updated
`completed_files` counter and the worker's `updated_patcher` field. -/

def check_patches_file (env : FileEnv) (w : Worker) (up : Option RPath) (file : MFile)
    (disk_file : RPath) (net_file : Url) (completed_files : Nat) :
    List Ev × Except String (Nat × Option RPath) :=
  let file_to_check := disk_file
  let file_to_write := file_to_check
  if env.fexists file_to_write then
    -- the disk file exists: read it, compare digests, redirect when it is us
    if env.readOk file_to_check then
      let file_matches := file.digest == env.diskDigest file_to_check
      let is_self := file_to_check == w.selfExe
      let redirected : Except String RPath :=
        if is_self then get_self_aecoupdate_path w else Except.ok file_to_write
      match redirected with
      | Except.error e => ([], Except.error e)
      | Except.ok file_to_write =>
        if file_matches then
          ([], Except.ok (completed_files + 1, up))
        else
          let (evs, r) := download_patched_file env net_file
          match r with
          | Except.error e => (evs, Except.error e)
          | Except.ok _ =>
            if env.writeOk file_to_write then
              (evs ++ [Ev.fsWrite file_to_write],
               Except.ok (completed_files + 1, if is_self then some file_to_write else up))
            else
              (evs ++ [Ev.fsWrite file_to_write], Except.error "write failed")
  else
      ([], Except.error "read failed")
  else
    -- the disk file does not exist: download and write it in place
    let (evs, r) := download_patched_file env net_file
    match r with
    | Except.error e => (evs, Except.error e)
    | Except.ok _ =>
      if env.writeOk file_to_write then
        (evs ++ [Ev.fsWrite file_to_write], Except.ok (completed_files + 1, up))
      else
        (evs ++ [Ev.fsWrite file_to_write], Except.error "write failed")

/-! ## Per-archive check (`check_patches_archive`, worker.rs lines 630-704) -/

/-- The member loop of `check_patches_archive` (worker.rs lines 651-692):
look each declared member up in the on-disk archive; a present member with
equal digest is skipped, an absent or differing member is downloaded and
written back with `add_file`, setting the `changes_made` flag; any other
archive read error aborts.  `completed_files` advances by one per member. -/
def archiveLoop (env : FileEnv) (archiveName : String) (hed : RPath) (net_path : Url) :
    List MFile → Nat → Bool → List Ev × Except String (Nat × Bool)
  | [], completed_files, changes_made => ([], Except.ok (completed_files, changes_made))
  | file :: rest, completed_files, changes_made =>
    let file_matches : Except String Bool :=
      match env.memberState hed file.name with
      | MemberLookup.found d => Except.ok (file.digest == d)
      | MemberLookup.absent => Except.ok false
      | MemberLookup.readErr => Except.error ("Failed while reading " ++ archiveName)
    match file_matches with
    | Except.error e => ([], Except.error e)
    | Except.ok true =>
      archiveLoop env archiveName hed net_path rest (completed_files + 1) changes_made
    | Except.ok false =>
      let (devs, dr) := download_patched_file env (net_path ++ [file.name])
      match dr with
      | Except.error e => (devs, Except.error e)
      | Except.ok _ =>
        if env.addOk hed file.name then
          let (evs2, r2) :=
            archiveLoop env archiveName hed net_path rest (completed_files + 1) true
          (devs ++ [Ev.addFile hed file.name] ++ evs2, r2)
        else
          (devs ++ [Ev.addFile hed file.name],
           Except.error ("Couldn't write to archive " ++ archiveName))

/-- `check_patches_archive` (worker.rs lines 630-704): open the `.dat`/`.hed`
pair, run the member loop, and, exactly when a change was made, `finalize`
then `defrag` the archive. -/
def check_patches_archive (env : FileEnv) (archiveName : String) (files : List MFile)
    (hed_path dat_path : RPath) (net_path : Url) (completed_files : Nat) :
    List Ev × Except String Nat :=
  if env.openOk dat_path hed_path then
    let (evs, r) := archiveLoop env archiveName hed_path net_path files completed_files false
    match r with
    | Except.error e => (evs, Except.error e)
    | Except.ok (completed', changes_made) =>
      if changes_made then
        if env.finalizeOk hed_path then
          if env.defragOk hed_path then
            (evs ++ [Ev.finalize hed_path, Ev.defrag hed_path], Except.ok completed')
          else
            (evs ++ [Ev.finalize hed_path, Ev.defrag hed_path],
             Except.error ("Couldn't defrag archive " ++ archiveName))
        else
          (evs ++ [Ev.finalize hed_path],
           Except.error ("Couldn't finalize archive " ++ archiveName))
      else
        (evs, Except.ok completed')
  else
    ([], Except.error ("Couldn't open archive " ++ archiveName))

/-! ## Directory walk (`check_patches_dir`, worker.rs lines 513-562) -/

/-- The child loop of `check_patches_dir`, over the `children` list: route each
child to the per-file check, the recursive directory walk (disk path and URL
extended by the child name), or the per-archive check (`<name>.hed` /
`<name>.dat` on disk, `<name>.archive/` online); the first error aborts the
walk, as each arm carries `?` in the source. -/
def check_patches_dir_aux (env : FileEnv) (w : Worker) :
    List FSObject → RPath → Url → Option RPath → Nat →
    List Ev × Except String (Nat × Option RPath)
  | [], _, _, up, completed_files => ([], Except.ok (completed_files, up))
  | FSObject.file f :: rest, disk_dir, net_path, up, completed_files =>
    let (evs, r) :=
      check_patches_file env w up f (disk_dir ++ [f.name]) (net_path ++ [f.name])
        completed_files
    match r with
    | Except.error e => (evs, Except.error e)
    | Except.ok (completed', up') =>
      let (evs2, r2) := check_patches_dir_aux env w rest disk_dir net_path up' completed'
      (evs ++ evs2, r2)
  | FSObject.directory name cs :: rest, disk_dir, net_path, up, completed_files =>
    let (evs, r) :=
      check_patches_dir_aux env w cs (disk_dir ++ [name]) (net_path ++ [name]) up
        completed_files
    match r with
    | Except.error e => (evs, Except.error e)
    | Except.ok (completed', up') =>
      let (evs2, r2) := check_patches_dir_aux env w rest disk_dir net_path up' completed'
      (evs ++ evs2, r2)
  | FSObject.archive name fs :: rest, disk_dir, net_path, up, completed_files =>
    let (evs, r) :=
      check_patches_archive env name fs
        (disk_dir ++ [rustWithExtension name "hed"])
        (disk_dir ++ [rustWithExtension name "dat"])
        (net_path ++ [name ++ ".archive"]) completed_files
    match r with
    | Except.error e => (evs, Except.error e)
    | Except.ok completed' =>
      let (evs2, r2) := check_patches_dir_aux env w rest disk_dir net_path up completed'
      (evs ++ evs2, r2)

/-- `check_patches_dir` on a `Directory` node (the `platform` and
`total_files` progress parameters feed only the dropped GUI channel). -/
def check_patches_dir (env : FileEnv) (w : Worker) (dir : Directory) (disk_dir : RPath)
    (net_path : Url) (up : Option RPath) (completed_files : Nat) :
    List Ev × Except String (Nat × Option RPath) :=
  check_patches_dir_aux env w dir.children disk_dir net_path up completed_files

/-- `check_platform_patches` (worker.rs lines 474-510): walk one platform
subtree from the worker's directory, starting the counter at 0. -/
def check_platform_patches (env : FileEnv) (w : Worker) (up : Option RPath)
    (dir : Directory) : List Ev × Except String (Nat × Option RPath) :=
  check_patches_dir env w dir w.selfDir (w.patchUrl ++ [dir.name]) up 0

/-! ## Matching-state predicate (for the idempotence claim)

Hypothesis-side predicate, following the spec's words for "disk state in
agreement with the manifest": every File leaf exists on disk, is readable and
carries the declared digest; every archive pair opens and every declared
member is present with the declared digest. -/

/-- Each declared member is present in the on-disk archive with the declared
digest. -/
def membersMatch (env : FileEnv) (hed : RPath) : List MFile → Bool
  | [] => true
  | f :: rest =>
    (match env.memberState hed f.name with
     | MemberLookup.found d => f.digest == d
     | _ => false) && membersMatch env hed rest

/-- Disk state agrees with the manifest subtree rooted at the child list,
placed at `disk_dir`. -/
def allMatchAux (env : FileEnv) : List FSObject → RPath → Bool
  | [], _ => true
  | FSObject.file f :: rest, disk_dir =>
    let p := disk_dir ++ [f.name]
    env.fexists p && env.readOk p && (f.digest == env.diskDigest p)
      && allMatchAux env rest disk_dir
  | FSObject.directory name cs :: rest, disk_dir =>
    allMatchAux env cs (disk_dir ++ [name]) && allMatchAux env rest disk_dir
  | FSObject.archive name fs :: rest, disk_dir =>
    let hed := disk_dir ++ [rustWithExtension name "hed"]
    let dat := disk_dir ++ [rustWithExtension name "dat"]
    env.openOk dat hed && membersMatch env hed fs && allMatchAux env rest disk_dir

/-! ## Base-game extraction (`unpack_base`, worker.rs lines 277-384) -/

/-- One component of a ZIP member's declared path. -/
inductive PComp where
  | root
  | parent
  | cur
  | normal (s : String)
deriving DecidableEq, Repr

/-- Modelled from the zip library: the depth scan inside `enclosed_name`,
which refuses prefix/root components and any `..` that would climb above the
start.  Returns the final depth when the path stays enclosed, `none`
otherwise. -/
def enclosedDepthGo : Nat → List PComp → Option Nat
  | d, [] => some d
  | _, PComp.root :: _ => none
  | d, PComp.parent :: rest =>
    match d with
    | 0 => none
    | d' + 1 => enclosedDepthGo d' rest
  | d, PComp.cur :: rest => enclosedDepthGo d rest
  | d, PComp.normal _ :: rest => enclosedDepthGo (d + 1) rest

/-- Modelled from the zip library: `ZipFile::enclosed_name`, used by
`unpack_base` at worker.rs lines 328-334 — the member's declared path when it
cannot escape the extraction root, `none` otherwise.  (The embedded null-byte
check does not arise for string components.) -/
def enclosed_name (p : List PComp) : Option (List PComp) :=
  match enclosedDepthGo 0 p with
  | some _ => some p
  | none => none

/-- Spec-side definition, following the spec's words: a member path escapes
`self_dir` when it is absolute or when some prefix of it resolves above the
extraction root through `..` traversal. -/
def escapesFrom : Nat → List PComp → Bool
  | _, [] => false
  | _, PComp.root :: _ => true
  | d, PComp.parent :: rest =>
    match d with
    | 0 => true
    | d' + 1 => escapesFrom d' rest
  | d, PComp.cur :: rest => escapesFrom d rest
  | d, PComp.normal _ :: rest => escapesFrom (d + 1) rest

/-- A ZIP member as `unpack_base` consumes it: its declared path and whether
its name ends in `/` (a directory entry). -/
structure ZipMember where
  path : List PComp
  isDir : Bool

/-- Environment for extraction: which paths exist and whether directory
creation and file writes succeed. -/
structure ZipEnv where
  fexists : RPath → Bool
  createDirOk : RPath → Bool
  writeOk : RPath → Bool

/-- Render a safe component back to a path segment. -/
def compRender : PComp → String
  | PComp.root => "/"
  | PComp.parent => ".."
  | PComp.cur => "."
  | PComp.normal s => s

/-- The per-member body of `unpack_base` (worker.rs lines 320-379): reject the
member when `enclosed_name` refuses its path; otherwise extract under
`self_dir` — a directory entry becomes `create_dir_all`, a file entry creates
its parent directory when missing and writes the file.  (The Unix-only
`set_permissions` step is platform-conditional and not modelled.) -/
def unpack_member (env : ZipEnv) (self_dir : RPath) (m : ZipMember) :
    List Ev × Except String Unit :=
  match enclosed_name m.path with
  | none => ([], Except.error "Invalid file path")
  | some filepath =>
    let outpath := self_dir ++ filepath.map compRender
    if m.isDir then
      if env.createDirOk outpath then ([Ev.createDir outpath], Except.ok ())
      else ([Ev.createDir outpath], Except.error "create_dir failed")
    else
      if env.fexists outpath.dropLast then
        if env.writeOk outpath then ([Ev.fsWrite outpath], Except.ok ())
        else ([Ev.fsWrite outpath], Except.error "write failed")
      else
        if env.createDirOk outpath.dropLast then
          if env.writeOk outpath then
            ([Ev.createDir outpath.dropLast, Ev.fsWrite outpath], Except.ok ())
          else
            ([Ev.createDir outpath.dropLast, Ev.fsWrite outpath],
             Except.error "write failed")
        else
          ([Ev.createDir outpath.dropLast], Except.error "create_dir failed")

/-! ## Event classifiers -/

def isAddFileEv : Ev → Bool
  | Ev.addFile _ _ => true
  | _ => false

def isFinalizeEv : Ev → Bool
  | Ev.finalize _ => true
  | _ => false

def isDefragEv : Ev → Bool
  | Ev.defrag _ => true
  | _ => false

/-! # Helper lemmas -/

/-- Unfolding of a successful `get_self_aecoupdate_path`. -/
lemma sidecar_shape (w : Worker) (scp : RPath)
    (hscp : get_self_aecoupdate_path w = Except.ok scp) :
    ∃ lname, w.selfExe.getLast? = some lname
      ∧ scp = w.selfExe.dropLast ++ [lname ++ "." ++ UPDATE_FILE_EXTENSION] := by
  unfold get_self_aecoupdate_path at hscp
  cases hl : w.selfExe.getLast? with
  | none => rw [hl] at hscp; simp at hscp
  | some lname =>
    rw [hl] at hscp
    simp only [Except.ok.injEq] at hscp
    exact ⟨lname, rfl, hscp.symm⟩

/-- The sidecar path is a different path from the running binary. -/
lemma sidecar_ne_self (w : Worker) (scp : RPath)
    (hscp : get_self_aecoupdate_path w = Except.ok scp) : scp ≠ w.selfExe := by
  obtain ⟨lname, hl, hs⟩ := sidecar_shape w scp hscp
  intro he
  have h1 : scp.getLast? = some (lname ++ "." ++ UPDATE_FILE_EXTENSION) := by
    rw [hs]; exact List.getLast?_concat _
  rw [he, hl] at h1
  have h2 : lname = lname ++ "." ++ UPDATE_FILE_EXTENSION := Option.some.inj h1
  have h3 := congrArg String.length h2
  rw [String.length_append, String.length_append] at h3
  have h4 : ("." : String).length = 1 := rfl
  have h5 : UPDATE_FILE_EXTENSION.length = 10 := rfl
  omega

/-- A nonempty self path always yields a sidecar path. -/
lemma sidecar_of_ne_nil (w : Worker) (hne : w.selfExe ≠ []) :
    ∃ scp, get_self_aecoupdate_path w = Except.ok scp := by
  unfold get_self_aecoupdate_path
  cases hl : w.selfExe.getLast? with
  | none => exact absurd (List.getLast?_eq_none_iff.mp hl) hne
  | some lname => exact ⟨_, rfl⟩

/-! # Claim C9 -/

/-- C9: `start_game` never returns an error — it sends its single
`Downloading` message and returns `Ok` — so the `Play` arm of the main loop
always takes the success branch: the 3-second sleep, a
`PatchStatus(GameLaunched)` report, and termination of the worker loop; the
failure branch reporting `Error` and staying in the loop is unreachable. -/
theorem claim9_start_game_infallible :
    start_game = ([GMsg.downloading "Let's play the game!"], Except.ok ())
    ∧ handle_play =
        ([Ev.sleep 3000],
         [GMsg.downloading "Let's play the game!",
          GMsg.patchStatus PatchStatus.gameLaunched], true) :=
  ⟨rfl, rfl⟩

/-! # Claim C10 -/

/-- C10: a File leaf whose disk path does not exist is downloaded and written
directly to that path — the self-redirect check lives only in the
exists-branch — so this holds for every path, in particular one equal to
`self_exe`, and `updated_patcher` is left unchanged. -/
theorem claim10_absent_file_written_in_place (env : FileEnv) (w : Worker)
    (up : Option RPath) (f : MFile) (p : RPath) (net : Url) (c : Nat)
    (hex : env.fexists p = false)
    (hdl : env.downloadOk net = true)
    (hw : env.writeOk p = true) :
    check_patches_file env w up f p net c =
      ([Ev.download net, Ev.fsWrite p], Except.ok (c + 1, up)) := by
  simp [check_patches_file, download_patched_file, hex, hdl, hw]

/-- Witness for C10, at a leaf whose path *is* the running binary: the write
goes to `self_exe` itself and `updated_patcher` stays unset. -/
theorem claim10_witness :
    check_patches_file
        ⟨fun _ => false, fun _ => true, fun _ => 0, fun _ => true, fun _ => true,
         fun _ _ => true, fun _ _ => MemberLookup.found 0, fun _ _ => true,
         fun _ => true, fun _ => true⟩
        ⟨["d", "app"], ["d"], ["u"]⟩ none ⟨"app", 1⟩ ["d", "app"] ["u", "app"] 0 =
      ([Ev.download ["u", "app"], Ev.fsWrite ["d", "app"]], Except.ok (1, none)) :=
  claim10_absent_file_written_in_place _ _ none ⟨"app", 1⟩ _ _ 0 rfl rfl rfl

/-! # Claim C1 -/

/-- C1: a File leaf that exists on disk, whose path equals `self_exe`, and
whose declared digest differs from the on-disk digest, is re-downloaded with
the write target redirected to the sidecar path returned by
`get_self_aecoupdate_path`; `updated_patcher` is set to that path, and no
write to `self_exe` itself occurs. -/
theorem claim1_self_redirect (env : FileEnv) (w : Worker) (up : Option RPath)
    (f : MFile) (p : RPath) (net : Url) (c : Nat) (scp : RPath)
    (hex : env.fexists p = true)
    (hread : env.readOk p = true)
    (hself : p = w.selfExe)
    (hdig : f.digest ≠ env.diskDigest p)
    (hscp : get_self_aecoupdate_path w = Except.ok scp)
    (hdl : env.downloadOk net = true)
    (hw : env.writeOk scp = true) :
    check_patches_file env w up f p net c =
      ([Ev.download net, Ev.fsWrite scp], Except.ok (c + 1, some scp))
    ∧ Ev.fsWrite w.selfExe ∉ (check_patches_file env w up f p net c).1 := by
  have hbeq : (p == w.selfExe) = true := by simp [hself]
  have hm : (f.digest == env.diskDigest p) = false := by
    simp [hdig]
  have hmain : check_patches_file env w up f p net c =
      ([Ev.download net, Ev.fsWrite scp], Except.ok (c + 1, some scp)) := by
    simp [check_patches_file, download_patched_file, hex, hread, hbeq, hm, hscp, hdl, hw]
  refine ⟨hmain, ?_⟩
  rw [hmain]
  have hne := sidecar_ne_self w scp hscp
  simp
  exact fun h => absurd h.symm hne

/-- Witness for C1: a concrete mismatching self leaf is written to the
sidecar, never to the binary itself. -/
theorem claim1_witness :
    check_patches_file
        ⟨fun _ => true, fun _ => true, fun _ => 0, fun _ => true, fun _ => true,
         fun _ _ => true, fun _ _ => MemberLookup.found 0, fun _ _ => true,
         fun _ => true, fun _ => true⟩
        ⟨["d", "app"], ["d"], ["u"]⟩ none ⟨"app", 1⟩ ["d", "app"] ["u", "app"] 0 =
      ([Ev.download ["u", "app"], Ev.fsWrite ["d", "app.aecoupdate"]],
       Except.ok (1, some ["d", "app.aecoupdate"]))
    ∧ Ev.fsWrite ["d", "app"] ∉
        (check_patches_file
          ⟨fun _ => true, fun _ => true, fun _ => 0, fun _ => true, fun _ => true,
           fun _ _ => true, fun _ _ => MemberLookup.found 0, fun _ _ => true,
           fun _ => true, fun _ => true⟩
          ⟨["d", "app"], ["d"], ["u"]⟩ none ⟨"app", 1⟩ ["d", "app"] ["u", "app"] 0).1 :=
  claim1_self_redirect _ _ none ⟨"app", 1⟩ _ _ 0 ["d", "app.aecoupdate"]
    rfl rfl rfl (by decide) rfl rfl rfl

/-! # Claim C4 -/

/-- The event trace of one `check_patches_file` call is one of: nothing, a
bare download, or a download followed by a single direct `std::fs::write` to
the computed target (the leaf's disk path, or the sidecar path after a
self-redirect).  No rename and no temporary file appear. -/
lemma check_patches_file_events (env : FileEnv) (w : Worker) (up : Option RPath)
    (f : MFile) (p : RPath) (net : Url) (c : Nat) :
    (check_patches_file env w up f p net c).1 = []
    ∨ (check_patches_file env w up f p net c).1 = [Ev.download net]
    ∨ (check_patches_file env w up f p net c).1 = [Ev.download net, Ev.fsWrite p]
    ∨ ∃ scp, get_self_aecoupdate_path w = Except.ok scp
        ∧ (check_patches_file env w up f p net c).1 = [Ev.download net, Ev.fsWrite scp] := by
  unfold check_patches_file download_patched_file
  by_cases h1 : env.fexists p
  · by_cases h2 : env.readOk p
    · by_cases h3 : (p == w.selfExe) = true
      · cases hr : get_self_aecoupdate_path w with
        | error e => simp [h1, h2, h3, hr]
        | ok scp =>
          by_cases h4 : (f.digest == env.diskDigest p) = true
          · simp [h1, h2, h3, hr, h4]
          · by_cases h5 : env.downloadOk net
            · by_cases h6 : env.writeOk scp
              · refine Or.inr (Or.inr (Or.inr ⟨scp, rfl, ?_⟩))
                simp [h1, h2, h3, hr, h4, h5, h6]
              · refine Or.inr (Or.inr (Or.inr ⟨scp, rfl, ?_⟩))
                simp [h1, h2, h3, hr, h4, h5, h6]
            · simp [h1, h2, h3, hr, h4, h5]
      · by_cases h4 : (f.digest == env.diskDigest p) = true
        · simp [h1, h2, h3, h4]
        · by_cases h5 : env.downloadOk net
          · by_cases h6 : env.writeOk p
            · simp [h1, h2, h3, h4, h5, h6]
            · simp [h1, h2, h3, h4, h5, h6]
          · simp [h1, h2, h3, h4, h5]
    · simp [h1, h2]
  · by_cases h5 : env.downloadOk net
    · by_cases h6 : env.writeOk p
      · simp [h1, h5, h6]
      · simp [h1, h5, h6]
    · simp [h1, h5]

/-- C4 counterexample: a concrete run on a File leaf absent from disk.  The
download is written *directly* to the target path — the trace holds the direct
write and no rename of any temporary file onto the target — refuting the claim
that every reconciler write is temp-file-then-rename. -/
theorem claim4_counterexample :
    (check_patches_file
        ⟨fun _ => false, fun _ => true, fun _ => 0, fun _ => true, fun _ => true,
         fun _ _ => true, fun _ _ => MemberLookup.found 0, fun _ _ => true,
         fun _ => true, fun _ => true⟩
        ⟨["d", "launcher"], ["d"], ["u"]⟩ none ⟨"game.bin", 5⟩ ["d", "game.bin"]
        ["u", "game.bin"] 0).1
      = [Ev.download ["u", "game.bin"], Ev.fsWrite ["d", "game.bin"]]
    ∧ Ev.fsWrite ["d", "game.bin"] ∈
        (check_patches_file
          ⟨fun _ => false, fun _ => true, fun _ => 0, fun _ => true, fun _ => true,
           fun _ _ => true, fun _ _ => MemberLookup.found 0, fun _ _ => true,
           fun _ => true, fun _ => true⟩
          ⟨["d", "launcher"], ["d"], ["u"]⟩ none ⟨"game.bin", 5⟩ ["d", "game.bin"]
          ["u", "game.bin"] 0).1
    ∧ ∀ a b, Ev.fsRename a b ∉
        (check_patches_file
          ⟨fun _ => false, fun _ => true, fun _ => 0, fun _ => true, fun _ => true,
           fun _ _ => true, fun _ _ => MemberLookup.found 0, fun _ _ => true,
           fun _ => true, fun _ => true⟩
          ⟨["d", "launcher"], ["d"], ["u"]⟩ none ⟨"game.bin", 5⟩ ["d", "game.bin"]
          ["u", "game.bin"] 0).1 := by
  have h : check_patches_file
        ⟨fun _ => false, fun _ => true, fun _ => 0, fun _ => true, fun _ => true,
         fun _ _ => true, fun _ _ => MemberLookup.found 0, fun _ _ => true,
         fun _ => true, fun _ => true⟩
        ⟨["d", "launcher"], ["d"], ["u"]⟩ none ⟨"game.bin", 5⟩ ["d", "game.bin"]
        ["u", "game.bin"] 0 =
      ([Ev.download ["u", "game.bin"], Ev.fsWrite ["d", "game.bin"]],
       Except.ok (1, none)) := rfl
  refine ⟨by rw [h], by rw [h]; simp, ?_⟩
  intro a b hmem
  rw [h] at hmem
  simp at hmem

/-- C4 amended: reconciler writes for File leaves are *direct*
`std::fs::write` calls — no temporary file and no rename is ever used — and
every write targets exactly the computed destination: the leaf's disk path or,
after a self-redirect, the sidecar path. -/
theorem claim4_amended_direct_writes (env : FileEnv) (w : Worker) (up : Option RPath)
    (f : MFile) (p : RPath) (net : Url) (c : Nat) :
    (∀ a b, Ev.fsRename a b ∉ (check_patches_file env w up f p net c).1)
    ∧ (∀ x, Ev.fsWrite x ∈ (check_patches_file env w up f p net c).1 →
        x = p ∨ get_self_aecoupdate_path w = Except.ok x) := by
  rcases check_patches_file_events env w up f p net c with h | h | h | ⟨scp, hscp, h⟩
  · rw [h]; exact ⟨fun a b => by simp, fun x hx => by simp at hx⟩
  · rw [h]; exact ⟨fun a b => by simp, fun x hx => by simp at hx⟩
  · rw [h]
    refine ⟨fun a b => by simp, fun x hx => ?_⟩
    simp at hx
    exact Or.inl hx
  · rw [h]
    refine ⟨fun a b => by simp, fun x hx => ?_⟩
    simp at hx
    subst hx
    exact Or.inr hscp

/-- Witness for the amended C4 theorem, at the counterexample input: the
lone write targets the leaf's own disk path. -/
theorem claim4_amended_witness :
    ∀ x, Ev.fsWrite x ∈
        (check_patches_file
          ⟨fun _ => false, fun _ => true, fun _ => 0, fun _ => true, fun _ => true,
           fun _ _ => true, fun _ _ => MemberLookup.found 0, fun _ _ => true,
           fun _ => true, fun _ => true⟩
          ⟨["d", "launcher"], ["d"], ["u"]⟩ none ⟨"game.bin", 5⟩ ["d", "game.bin"]
          ["u", "game.bin"] 0).1 →
      x = ["d", "game.bin"]
      ∨ get_self_aecoupdate_path ⟨["d", "launcher"], ["d"], ["u"]⟩ = Except.ok x :=
  (claim4_amended_direct_writes _ _ none ⟨"game.bin", 5⟩ _ _ 0).2

/-! # Retry-loop lemmas (5 attempts, 250 ms spacing) -/

/-- When the first `k - 1` attempts fail and the `k`-th succeeds (`k ≤ 5`),
the 5-attempt retry loop performs exactly `k` attempts separated by 250 ms
sleeps and succeeds. -/
lemma retryLoop5_success (ok : Nat → Bool) (ev : Ev) (msg : String) (k : Nat)
    (hk1 : 1 ≤ k) (hk5 : k ≤ 5)
    (hbefore : ∀ i, 1 ≤ i → i < k → ok i = false) (hk : ok k = true) :
    retryLoop ok ev msg 5 5 = (attemptEvents ev k, Except.ok ()) := by
  interval_cases k
  · simp [retryLoop, attemptEvents, hk]
  · have h1 := hbefore 1 (by omega) (by omega)
    simp [retryLoop, attemptEvents, h1, hk]
  · have h1 := hbefore 1 (by omega) (by omega)
    have h2 := hbefore 2 (by omega) (by omega)
    simp [retryLoop, attemptEvents, h1, h2, hk]
  · have h1 := hbefore 1 (by omega) (by omega)
    have h2 := hbefore 2 (by omega) (by omega)
    have h3 := hbefore 3 (by omega) (by omega)
    simp [retryLoop, attemptEvents, h1, h2, h3, hk]
  · have h1 := hbefore 1 (by omega) (by omega)
    have h2 := hbefore 2 (by omega) (by omega)
    have h3 := hbefore 3 (by omega) (by omega)
    have h4 := hbefore 4 (by omega) (by omega)
    simp [retryLoop, attemptEvents, h1, h2, h3, h4, hk]

/-- When all 5 attempts fail, the retry loop performs 5 attempts separated by
250 ms sleeps and fails with its error message. -/
lemma retryLoop5_fail (ok : Nat → Bool) (ev : Ev) (msg : String)
    (hall : ∀ i, 1 ≤ i → i ≤ 5 → ok i = false) :
    retryLoop ok ev msg 5 5 = (attemptEvents ev 5, Except.error msg) := by
  have h1 := hall 1 (by omega) (by omega)
  have h2 := hall 2 (by omega) (by omega)
  have h3 := hall 3 (by omega) (by omega)
  have h4 := hall 4 (by omega) (by omega)
  have h5 := hall 5 (by omega) (by omega)
  simp [retryLoop, attemptEvents, h1, h2, h3, h4, h5]

/-! # Claim C2 -/

/-- C2: when the running binary's last extension is `aecoupdate`, sidecar
cleanup computes the target by stripping that extension, *copies* (the trace
holds `copyFile` events, no rename) `self_exe` to the target with up to 5
attempts at 250 ms spacing, spawns the target detached and exits with code 0
on success, and fails with the self-replace error after 5 failed copies. -/
theorem claim2_sidecar_protocol (env : SelfEnv) (w : Worker)
    (hx : pathExtension w.selfExe = some UPDATE_FILE_EXTENSION) :
    (∀ k, 1 ≤ k → k ≤ 5 → (∀ i, 1 ≤ i → i < k → env.copyOk i = false) →
        env.copyOk k = true →
        env.spawnOk (pathSetExtensionEmpty w.selfExe) = true →
        check_patcher_aecoupdate env w =
          (attemptEvents (Ev.copyFile w.selfExe (pathSetExtensionEmpty w.selfExe)) k
            ++ [Ev.spawn (pathSetExtensionEmpty w.selfExe)], SelfCheckResult.exited 0))
    ∧ ((∀ i, 1 ≤ i → i ≤ 5 → env.copyOk i = false) →
        check_patcher_aecoupdate env w =
          (attemptEvents (Ev.copyFile w.selfExe (pathSetExtensionEmpty w.selfExe)) 5,
           SelfCheckResult.failed "Failed to overwrite patcher")) := by
  constructor
  · intro k hk1 hk5 hbefore hkk hsp
    have hloop := retryLoop5_success env.copyOk
      (Ev.copyFile w.selfExe (pathSetExtensionEmpty w.selfExe))
      "Failed to overwrite patcher" k hk1 hk5 hbefore hkk
    simp [check_patcher_aecoupdate, hx, hloop, hsp]
  · intro hall
    have hloop := retryLoop5_fail env.copyOk
      (Ev.copyFile w.selfExe (pathSetExtensionEmpty w.selfExe))
      "Failed to overwrite patcher" hall
    simp [check_patcher_aecoupdate, hx, hloop]

/-- Witness for C2: running from `app.exe.aecoupdate`, with the first copy
attempt failing and the second succeeding, cleanup copies twice with one
250 ms sleep between, spawns the restored `app.exe` and exits 0. -/
theorem claim2_witness :
    check_patcher_aecoupdate ⟨fun i => i == 2, fun _ => true, fun _ => true, fun _ => true⟩
        ⟨["d", "app.exe.aecoupdate"], ["d"], ["u"]⟩ =
      (attemptEvents
          (Ev.copyFile ["d", "app.exe.aecoupdate"]
            (pathSetExtensionEmpty ["d", "app.exe.aecoupdate"])) 2
        ++ [Ev.spawn (pathSetExtensionEmpty ["d", "app.exe.aecoupdate"])],
       SelfCheckResult.exited 0) :=
  (claim2_sidecar_protocol _ _ (by decide)).1 2 (by omega) (by omega)
    (by intro i hi1 hi2; have hi : i = 1 := by omega
        subst hi; rfl)
    rfl rfl

/-! # Claim C3 -/

/-- C3 counterexample: the running binary is `launcher.exe` — last extension
`exe`, not `aecoupdate` — and a stale sidecar `launcher.exe.aecoupdate`
exists, yet sidecar cleanup returns at once with an empty trace: no removal of
the sidecar is even attempted.  This refutes the claim that every
non-`aecoupdate` name triggers a best-effort removal of an existing stale
sidecar: the source only attempts removal when the name has *no* extension
(worker.rs lines 741-753). -/
theorem claim3_counterexample :
    pathExtension (["dir", "launcher.exe"] : RPath) = some "exe"
    ∧ get_self_aecoupdate_path ⟨["dir", "launcher.exe"], ["dir"], ["u"]⟩ =
        Except.ok ["dir", "launcher.exe.aecoupdate"]
    ∧ (SelfEnv.fexists ⟨fun _ => true, fun _ => true, fun _ => true, fun _ => true⟩)
        ["dir", "launcher.exe.aecoupdate"] = true
    ∧ check_patcher_aecoupdate ⟨fun _ => true, fun _ => true, fun _ => true, fun _ => true⟩
        ⟨["dir", "launcher.exe"], ["dir"], ["u"]⟩ = ([], SelfCheckResult.proceeds)
    ∧ Ev.removeFile ["dir", "launcher.exe.aecoupdate"] ∉
        (check_patcher_aecoupdate ⟨fun _ => true, fun _ => true, fun _ => true, fun _ => true⟩
          ⟨["dir", "launcher.exe"], ["dir"], ["u"]⟩).1 := by
  refine ⟨by decide, rfl, rfl, rfl, ?_⟩
  intro h
  have he : (check_patcher_aecoupdate ⟨fun _ => true, fun _ => true, fun _ => true, fun _ => true⟩
      ⟨["dir", "launcher.exe"], ["dir"], ["u"]⟩).1 = [] := rfl
  rw [he] at h
  simp at h

/-- C3 amended: sidecar cleanup attempts the (up to 5 tries, 250 ms spacing)
removal of an existing stale sidecar only when the running binary's file name
has *no* extension, and in that case a persistent failure fails the routine
rather than being best-effort; when the last extension is some other extension
(such as `exe`), cleanup returns successfully immediately, attempting
nothing. -/
theorem claim3_amended_cleanup (env : SelfEnv) (w : Worker) :
    (∀ e, pathExtension w.selfExe = some e → e ≠ UPDATE_FILE_EXTENSION →
        check_patcher_aecoupdate env w = ([], SelfCheckResult.proceeds))
    ∧ (pathExtension w.selfExe = none →
        ∀ scp, get_self_aecoupdate_path w = Except.ok scp →
        ((env.fexists scp = false →
            check_patcher_aecoupdate env w = ([], SelfCheckResult.proceeds))
         ∧ (env.fexists scp = true → ∀ k, 1 ≤ k → k ≤ 5 →
              (∀ i, 1 ≤ i → i < k → env.removeOk i = false) → env.removeOk k = true →
              check_patcher_aecoupdate env w =
                (attemptEvents (Ev.removeFile scp) k, SelfCheckResult.proceeds))
         ∧ (env.fexists scp = true → (∀ i, 1 ≤ i → i ≤ 5 → env.removeOk i = false) →
              check_patcher_aecoupdate env w =
                (attemptEvents (Ev.removeFile scp) 5,
                 SelfCheckResult.failed "Failed to remove temporary launcher.")))) := by
  constructor
  · intro e hx hne
    simp [check_patcher_aecoupdate, hx, hne]
  · intro hx scp hscp
    refine ⟨?_, ?_, ?_⟩
    · intro hfe
      simp [check_patcher_aecoupdate, remove_aecoupdate_file, hx, hscp, hfe]
    · intro hfe k hk1 hk5 hbefore hkk
      have hloop := retryLoop5_success env.removeOk (Ev.removeFile scp)
        "Failed to remove temporary launcher." k hk1 hk5 hbefore hkk
      simp [check_patcher_aecoupdate, remove_aecoupdate_file, hx, hscp, hfe, hloop]
    · intro hfe hall
      have hloop := retryLoop5_fail env.removeOk (Ev.removeFile scp)
        "Failed to remove temporary launcher." hall
      simp [check_patcher_aecoupdate, remove_aecoupdate_file, hx, hscp, hfe, hloop]

/-- Witness for the amended C3 theorem: an extensionless binary with an
existing stale sidecar removes it on the first attempt and proceeds. -/
theorem claim3_amended_witness :
    check_patcher_aecoupdate ⟨fun _ => true, fun _ => true, fun _ => true, fun _ => true⟩
        ⟨["dir", "launcher"], ["dir"], ["u"]⟩ =
      (attemptEvents (Ev.removeFile ["dir", "launcher.aecoupdate"]) 1,
       SelfCheckResult.proceeds) :=
  ((claim3_amended_cleanup _ ⟨["dir", "launcher"], ["dir"], ["u"]⟩).2 rfl
    ["dir", "launcher.aecoupdate"] rfl).2.1 rfl 1 (by omega) (by omega)
    (fun i hi1 hi2 => absurd hi2 (by omega)) rfl

/-! # Counting lemmas -/

/-- A successful per-file check advances `completed_files` by exactly one. -/
lemma check_patches_file_count (env : FileEnv) (w : Worker) (up : Option RPath)
    (f : MFile) (p : RPath) (net : Url) (c : Nat) :
    ∀ n up', (check_patches_file env w up f p net c).2 = Except.ok (n, up') → n = c + 1 := by
  intro n up' h
  unfold check_patches_file download_patched_file at h
  by_cases h1 : env.fexists p
  · by_cases h2 : env.readOk p
    · by_cases h3 : (p == w.selfExe) = true
      · cases hr : get_self_aecoupdate_path w with
        | error e => simp [h1, h2, h3, hr] at h
        | ok scp =>
          by_cases h4 : (f.digest == env.diskDigest p) = true
          · simp [h1, h2, h3, hr, h4] at h
            omega
          · by_cases h5 : env.downloadOk net
            · by_cases h6 : env.writeOk scp
              · simp [h1, h2, h3, hr, h4, h5, h6] at h
                omega
              · simp [h1, h2, h3, hr, h4, h5, h6] at h
            · simp [h1, h2, h3, hr, h4, h5] at h
      · by_cases h4 : (f.digest == env.diskDigest p) = true
        · simp [h1, h2, h3, h4] at h
          omega
        · by_cases h5 : env.downloadOk net
          · by_cases h6 : env.writeOk p
            · simp [h1, h2, h3, h4, h5, h6] at h
              omega
            · simp [h1, h2, h3, h4, h5, h6] at h
          · simp [h1, h2, h3, h4, h5] at h
    · simp [h1, h2] at h
  · by_cases h5 : env.downloadOk net
    · by_cases h6 : env.writeOk p
      · simp [h1, h5, h6] at h
        omega
      · simp [h1, h5, h6] at h
    · simp [h1, h5] at h

/-- Trace and result of the archive member loop: the loop itself never emits
`finalize` or `defrag`; on success, the final `changes_made` flag is the
starting flag joined with whether any `add_file` happened, and
`completed_files` advances by exactly the member count. -/
lemma archiveLoop_spec (env : FileEnv) (an : String) (hed : RPath) (net : Url) :
    ∀ (fs : List MFile) (c : Nat) (dirty : Bool),
      ((archiveLoop env an hed net fs c dirty).1.any isFinalizeEv = false
        ∧ (archiveLoop env an hed net fs c dirty).1.any isDefragEv = false)
      ∧ ∀ n d, (archiveLoop env an hed net fs c dirty).2 = Except.ok (n, d) →
          d = (dirty || (archiveLoop env an hed net fs c dirty).1.any isAddFileEv)
          ∧ n = c + fs.length := by
  intro fs
  induction fs with
  | nil =>
    intro c dirty
    refine ⟨⟨rfl, rfl⟩, ?_⟩
    intro n d h
    simp only [archiveLoop, Except.ok.injEq, Prod.mk.injEq] at h
    simp [archiveLoop, ← h.1, ← h.2]
  | cons f rest ih =>
    intro c dirty
    cases hms : env.memberState hed f.name with
    | found d0 =>
      by_cases hb : (f.digest == d0) = true
      · have e1 : archiveLoop env an hed net (f :: rest) c dirty
            = archiveLoop env an hed net rest (c + 1) dirty := by
          simp [archiveLoop, hms, hb]
        have hrec := ih (c + 1) dirty
        rw [e1]
        refine ⟨hrec.1, ?_⟩
        intro n d h
        obtain ⟨hd, hn⟩ := hrec.2 n d h
        refine ⟨hd, ?_⟩
        simp [hn]
        omega
      · by_cases hdl : env.downloadOk (net ++ [f.name]) = true
        · by_cases hadd : env.addOk hed f.name = true
          · have e1 : archiveLoop env an hed net (f :: rest) c dirty
                = (Ev.download (net ++ [f.name]) :: Ev.addFile hed f.name ::
                    (archiveLoop env an hed net rest (c + 1) true).1,
                   (archiveLoop env an hed net rest (c + 1) true).2) := by
              simp [archiveLoop, hms, hb, download_patched_file, hdl, hadd]
            have hrec := ih (c + 1) true
            rw [e1]
            refine ⟨⟨?_, ?_⟩, ?_⟩
            · simp [List.any_cons, isFinalizeEv, hrec.1.1]
            · simp [List.any_cons, isDefragEv, hrec.1.2]
            · intro n d h
              obtain ⟨hd, hn⟩ := hrec.2 n d h
              constructor
              · simp [List.any_cons, isAddFileEv]
                simp at hd
                exact hd
              · simp [hn]
                omega
          · have e1 : archiveLoop env an hed net (f :: rest) c dirty
                = ([Ev.download (net ++ [f.name]), Ev.addFile hed f.name],
                   Except.error ("Couldn't write to archive " ++ an)) := by
              simp [archiveLoop, hms, hb, download_patched_file, hdl, hadd]
            rw [e1]
            refine ⟨⟨?_, ?_⟩, ?_⟩
            · simp [List.any_cons, isFinalizeEv]
            · simp [List.any_cons, isDefragEv]
            · intro n d h
              simp at h
        · have e1 : archiveLoop env an hed net (f :: rest) c dirty
              = ([Ev.download (net ++ [f.name])],
                 Except.error "Failed to get patched file") := by
            simp [archiveLoop, hms, hb, download_patched_file, hdl]
          rw [e1]
          refine ⟨⟨?_, ?_⟩, ?_⟩
          · simp [List.any_cons, isFinalizeEv]
          · simp [List.any_cons, isDefragEv]
          · intro n d h
            simp at h
    | absent =>
      by_cases hdl : env.downloadOk (net ++ [f.name]) = true
      · by_cases hadd : env.addOk hed f.name = true
        · have e1 : archiveLoop env an hed net (f :: rest) c dirty
              = (Ev.download (net ++ [f.name]) :: Ev.addFile hed f.name ::
                  (archiveLoop env an hed net rest (c + 1) true).1,
                 (archiveLoop env an hed net rest (c + 1) true).2) := by
            simp [archiveLoop, hms, download_patched_file, hdl, hadd]
          have hrec := ih (c + 1) true
          rw [e1]
          refine ⟨⟨?_, ?_⟩, ?_⟩
          · simp [List.any_cons, isFinalizeEv, hrec.1.1]
          · simp [List.any_cons, isDefragEv, hrec.1.2]
          · intro n d h
            obtain ⟨hd, hn⟩ := hrec.2 n d h
            constructor
            · simp [List.any_cons, isAddFileEv]
              simp at hd
              exact hd
            · simp [hn]
              omega
        · have e1 : archiveLoop env an hed net (f :: rest) c dirty
              = ([Ev.download (net ++ [f.name]), Ev.addFile hed f.name],
                 Except.error ("Couldn't write to archive " ++ an)) := by
            simp [archiveLoop, hms, download_patched_file, hdl, hadd]
          rw [e1]
          refine ⟨⟨?_, ?_⟩, ?_⟩
          · simp [List.any_cons, isFinalizeEv]
          · simp [List.any_cons, isDefragEv]
          · intro n d h
            simp at h
      · have e1 : archiveLoop env an hed net (f :: rest) c dirty
            = ([Ev.download (net ++ [f.name])],
               Except.error "Failed to get patched file") := by
          simp [archiveLoop, hms, download_patched_file, hdl]
        rw [e1]
        refine ⟨⟨?_, ?_⟩, ?_⟩
        · simp [List.any_cons, isFinalizeEv]
        · simp [List.any_cons, isDefragEv]
        · intro n d h
          simp at h
    | readErr =>
      have e1 : archiveLoop env an hed net (f :: rest) c dirty
          = ([], Except.error ("Failed while reading " ++ an)) := by
        simp [archiveLoop, hms]
      rw [e1]
      refine ⟨⟨rfl, rfl⟩, ?_⟩
      intro n d h
      simp at h

/-- A successful per-archive check advances `completed_files` by exactly the
member count, whether or not any member was rewritten. -/
lemma check_patches_archive_count (env : FileEnv) (an : String) (fs : List MFile)
    (hed dat : RPath) (net : Url) (c : Nat) :
    ∀ n, (check_patches_archive env an fs hed dat net c).2 = Except.ok n →
      n = c + fs.length := by
  intro n h
  unfold check_patches_archive at h
  by_cases ho : env.openOk dat hed
  · rw [if_pos ho] at h
    rcases hl : archiveLoop env an hed net fs c false with ⟨evs, r⟩
    rw [hl] at h
    cases r with
    | error e => simp at h
    | ok pr =>
      obtain ⟨n', d⟩ := pr
      have hn' := ((archiveLoop_spec env an hed net fs c false).2 n' d (by rw [hl])).2
      cases d with
      | false =>
        simp at h
        omega
      | true =>
        by_cases hf : env.finalizeOk hed
        · by_cases hdf : env.defragOk hed
          · simp [hf, hdf] at h
            omega
          · simp [hf, hdf] at h
        · simp [hf] at h
  · rw [if_neg ho] at h
    simp at h

/-! # Matching-state walk lemmas -/

/-- A matching File leaf is skipped: no events, counter advances by one,
`updated_patcher` untouched.  (A nonempty `self_exe` is assumed so the
self-redirect path resolution cannot fail; the running binary always has a
file name.) -/
lemma check_patches_file_skip (env : FileEnv) (w : Worker) (up : Option RPath)
    (f : MFile) (p : RPath) (net : Url) (c : Nat) (hw : w.selfExe ≠ [])
    (h1 : env.fexists p = true) (h2 : env.readOk p = true)
    (h3 : (f.digest == env.diskDigest p) = true) :
    check_patches_file env w up f p net c = ([], Except.ok (c + 1, up)) := by
  obtain ⟨scp, hscp⟩ := sidecar_of_ne_nil w hw
  by_cases h4 : (p == w.selfExe) = true
  · simp [check_patches_file, h1, h2, h3, h4, hscp]
  · simp [check_patches_file, h1, h2, h3, h4]

/-- An archive whose members all match is left untouched by the member loop:
no events, counter advances by the member count, the dirty flag unchanged. -/
lemma archiveLoop_skip (env : FileEnv) (an : String) (hed : RPath) (net : Url) :
    ∀ (fs : List MFile) (c : Nat) (dirty : Bool), membersMatch env hed fs = true →
      archiveLoop env an hed net fs c dirty = ([], Except.ok (c + fs.length, dirty)) := by
  intro fs
  induction fs with
  | nil => intro c dirty _; simp [archiveLoop]
  | cons f rest ih =>
    intro c dirty hm
    simp only [membersMatch, Bool.and_eq_true] at hm
    cases hms : env.memberState hed f.name with
    | found d0 =>
      rw [hms] at hm
      have hmb : (f.digest == d0) = true := hm.1
      have harith : c + 1 + rest.length = c + (rest.length + 1) := by omega
      simp [archiveLoop, hms, hmb, ih (c + 1) dirty hm.2, List.length_cons, harith]
    | absent => rw [hms] at hm; simp at hm
    | readErr => rw [hms] at hm; simp at hm

/-- An archive whose pair opens and whose members all match produces no
events at all: in particular neither `finalize` nor `defrag` is called. -/
lemma check_patches_archive_skip (env : FileEnv) (an : String) (fs : List MFile)
    (hed dat : RPath) (net : Url) (c : Nat)
    (ho : env.openOk dat hed = true) (hm : membersMatch env hed fs = true) :
    check_patches_archive env an fs hed dat net c = ([], Except.ok (c + fs.length)) := by
  simp [check_patches_archive, ho, archiveLoop_skip env an hed net fs c false hm]

/-- The matching-state walk: when disk agrees with the manifest subtree, the
walk produces the empty trace, succeeds, advances the counter by the leaf
count, and leaves `updated_patcher` unchanged.  (A nonempty `self_exe` is
assumed; the running binary always has a file name.) -/
lemma walk_all_match (env : FileEnv) (w : Worker) (hw : w.selfExe ≠ []) :
    ∀ (cs : List FSObject) (dd : RPath) (np : Url) (u : Option RPath) (k : Nat),
    allMatchAux env cs dd = true →
    check_patches_dir_aux env w cs dd np u k
      = ([], Except.ok (k + totalFilesAux cs, u)) := by
  intro cs dd np u k
  induction cs, dd, np, u, k using check_patches_dir_aux.induct env w with
  | case1 dd np u k =>
    intro _
    simp [check_patches_dir_aux, totalFilesAux]
  | case2 f rest dd np u k evs2 e hfile =>
    intro hm
    simp only [allMatchAux, Bool.and_eq_true] at hm
    obtain ⟨⟨⟨ha, hb⟩, hc⟩, hd⟩ := hm
    have hskip := check_patches_file_skip env w u f (dd ++ [f.name]) (np ++ [f.name])
      k hw ha hb hc
    rw [hskip] at hfile
    simp at hfile
  | case3 f rest dd np u k evs2 k' u' evs3 r2 hrest hfile ih =>
    intro hm
    simp only [allMatchAux, Bool.and_eq_true] at hm
    obtain ⟨⟨⟨ha, hb⟩, hc⟩, hd⟩ := hm
    have hskip := check_patches_file_skip env w u f (dd ++ [f.name]) (np ++ [f.name])
      k hw ha hb hc
    rw [hskip] at hfile
    simp only [Prod.mk.injEq, Except.ok.injEq] at hfile
    obtain ⟨hevs, hk', hu'⟩ := hfile
    subst hevs
    subst hk'
    subst hu'
    have hrec := ih hd
    have harith : k + 1 + totalFilesAux rest = k + (1 + totalFilesAux rest) := by omega
    simp [check_patches_dir_aux, hskip, hrec, totalFilesAux, harith]
  | case4 name cs rest dd np u k evs2 e hcs ih =>
    intro hm
    simp only [allMatchAux, Bool.and_eq_true] at hm
    obtain ⟨hcsM, hrestM⟩ := hm
    have hrec := ih hcsM
    rw [hrec] at hcs
    simp at hcs
  | case5 name cs rest dd np u k evs2 k' u' evs3 r2 hrest hcs ih1 ih2 =>
    intro hm
    simp only [allMatchAux, Bool.and_eq_true] at hm
    obtain ⟨hcsM, hrestM⟩ := hm
    have hrec1 := ih1 hcsM
    rw [hrec1] at hcs
    simp only [Prod.mk.injEq, Except.ok.injEq] at hcs
    obtain ⟨hevs, hk', hu'⟩ := hcs
    subst hevs
    subst hk'
    subst hu'
    have hrec2 := ih2 hrestM
    have harith : k + totalFilesAux cs + totalFilesAux rest
        = k + (totalFilesAux cs + totalFilesAux rest) := by omega
    simp [check_patches_dir_aux, hrec1, hrec2, totalFilesAux, harith]
  | case6 name fs rest dd np u k evs e harch =>
    intro hm
    simp only [allMatchAux, Bool.and_eq_true] at hm
    obtain ⟨⟨ho, hmm⟩, hrestM⟩ := hm
    have hrec := check_patches_archive_skip env name fs
      (dd ++ [rustWithExtension name "hed"]) (dd ++ [rustWithExtension name "dat"])
      (np ++ [name ++ ".archive"]) k ho hmm
    rw [hrec] at harch
    simp at harch
  | case7 name fs rest dd np u k evs k' evs2 r2 hrest harch ih =>
    intro hm
    simp only [allMatchAux, Bool.and_eq_true] at hm
    obtain ⟨⟨ho, hmm⟩, hrestM⟩ := hm
    have hrecA := check_patches_archive_skip env name fs
      (dd ++ [rustWithExtension name "hed"]) (dd ++ [rustWithExtension name "dat"])
      (np ++ [name ++ ".archive"]) k ho hmm
    rw [hrecA] at harch
    simp only [Prod.mk.injEq, Except.ok.injEq] at harch
    obtain ⟨hevs, hk'⟩ := harch
    subst hevs
    subst hk'
    have hrec := ih hrestM
    have harith : k + fs.length + totalFilesAux rest
        = k + (fs.length + totalFilesAux rest) := by omega
    simp [check_patches_dir_aux, hrecA, hrec, totalFilesAux, harith]

/-! # Claim C6 -/

/-- C6: for every Directory node and starting count `c`, a successful walk
returns `c` plus the leaf count of the node (File leaves count 1, Archive
leaves their member count, i.e. `get_total_files_in_patch`) — so a platform
walk started at 0 ends exactly at the platform's total — and the per-archive
routine advances the counter by one per member whether or not the member was
rewritten. -/
theorem claim6_counter_consistency (env : FileEnv) (w : Worker) (dir : Directory)
    (disk_dir : RPath) (net_path : Url) (up : Option RPath) (c : Nat) :
    (∀ n up', (check_patches_dir env w dir disk_dir net_path up c).2 = Except.ok (n, up') →
        n = c + get_total_files_in_patch dir)
    ∧ (∀ an fs hed dat net n',
        (check_patches_archive env an fs hed dat net c).2 = Except.ok n' →
        n' = c + fs.length) := by
  have main : ∀ (cs : List FSObject) (dd : RPath) (np : Url) (u : Option RPath) (k : Nat),
      ∀ n up', (check_patches_dir_aux env w cs dd np u k).2 = Except.ok (n, up') →
        n = k + totalFilesAux cs := by
    intro cs dd np u k
    induction cs, dd, np, u, k using check_patches_dir_aux.induct env w with
    | case1 dd np u k =>
      intro n up' h
      simp only [check_patches_dir_aux, Except.ok.injEq, Prod.mk.injEq] at h
      simp [totalFilesAux, ← h.1]
    | case2 f rest dd np u k evs2 e hfile =>
      intro n up' h
      simp only [check_patches_dir_aux, hfile] at h
      simp at h
    | case3 f rest dd np u k evs2 k' u' evs3 r2 hrest hfile ih =>
      intro n up' h
      simp only [check_patches_dir_aux, hfile, hrest] at h
      have hk' := check_patches_file_count env w u f (dd ++ [f.name]) (np ++ [f.name]) k
        k' u' (by rw [hfile])
      have hn := ih n up' (by rw [hrest]; exact h)
      simp only [totalFilesAux]
      omega
    | case4 name cs rest dd np u k evs2 e hcs ih =>
      intro n up' h
      simp only [check_patches_dir_aux, hcs] at h
      simp at h
    | case5 name cs rest dd np u k evs2 k' u' evs3 r2 hrest hcs ih1 ih2 =>
      intro n up' h
      simp only [check_patches_dir_aux, hcs, hrest] at h
      have hk' := ih1 k' u' (by rw [hcs])
      have hn := ih2 n up' (by rw [hrest]; exact h)
      simp only [totalFilesAux]
      omega
    | case6 name fs rest dd np u k evs e harch =>
      intro n up' h
      simp only [check_patches_dir_aux, harch] at h
      simp at h
    | case7 name fs rest dd np u k evs k' evs2 r2 hrest harch ih =>
      intro n up' h
      simp only [check_patches_dir_aux, harch, hrest] at h
      have hk' := check_patches_archive_count env name fs
        (dd ++ [rustWithExtension name "hed"]) (dd ++ [rustWithExtension name "dat"])
        (np ++ [name ++ ".archive"]) k k' (by rw [harch])
      have hn := ih n up' (by rw [hrest]; exact h)
      simp only [totalFilesAux]
      omega
  refine ⟨?_, ?_⟩
  · intro n up' h
    exact main dir.children disk_dir net_path up c n up' h
  · intro an fs hed dat net n' h
    exact check_patches_archive_count env an fs hed dat net c n' h

/-- Witness for C6: a concrete walk over one file, one subdirectory and one
single-member archive, started at 2, ends at 5; a concrete archive of one
member started at 3 ends at 4. -/
theorem claim6_witness :
    ((5 : Nat) = 2 + get_total_files_in_patch
        ⟨"all", [FSObject.file ⟨"a", 0⟩,
                 FSObject.directory "sub" [FSObject.file ⟨"b", 0⟩],
                 FSObject.archive "arc" [⟨"m", 0⟩]]⟩)
    ∧ ((4 : Nat) = 3 + ([⟨"m", 0⟩] : List MFile).length) := by
  constructor
  · exact (claim6_counter_consistency
      ⟨fun _ => true, fun _ => true, fun _ => 0, fun _ => true, fun _ => true,
       fun _ _ => true, fun _ _ => MemberLookup.found 0, fun _ _ => true,
       fun _ => true, fun _ => true⟩
      ⟨["d", "app"], ["d"], ["u"]⟩
      ⟨"all", [FSObject.file ⟨"a", 0⟩,
               FSObject.directory "sub" [FSObject.file ⟨"b", 0⟩],
               FSObject.archive "arc" [⟨"m", 0⟩]]⟩
      ["d"] ["u"] none 2).1 5 none (by
        have hm : allMatchAux
            ⟨fun _ => true, fun _ => true, fun _ => 0, fun _ => true, fun _ => true,
             fun _ _ => true, fun _ _ => MemberLookup.found 0, fun _ _ => true,
             fun _ => true, fun _ => true⟩
            [FSObject.file ⟨"a", 0⟩,
             FSObject.directory "sub" [FSObject.file ⟨"b", 0⟩],
             FSObject.archive "arc" [⟨"m", 0⟩]] ["d"] = true := by
          simp [allMatchAux, membersMatch, rustWithExtension, rustFileStem,
            splitAtLastDot]
        have hwalk := walk_all_match
          ⟨fun _ => true, fun _ => true, fun _ => 0, fun _ => true, fun _ => true,
           fun _ _ => true, fun _ _ => MemberLookup.found 0, fun _ _ => true,
           fun _ => true, fun _ => true⟩
          ⟨["d", "app"], ["d"], ["u"]⟩ (by simp)
          [FSObject.file ⟨"a", 0⟩,
           FSObject.directory "sub" [FSObject.file ⟨"b", 0⟩],
           FSObject.archive "arc" [⟨"m", 0⟩]] ["d"] ["u"] none 2 hm
        show (check_patches_dir_aux
          ⟨fun _ => true, fun _ => true, fun _ => 0, fun _ => true, fun _ => true,
           fun _ _ => true, fun _ _ => MemberLookup.found 0, fun _ _ => true,
           fun _ => true, fun _ => true⟩
          ⟨["d", "app"], ["d"], ["u"]⟩
          [FSObject.file ⟨"a", 0⟩,
           FSObject.directory "sub" [FSObject.file ⟨"b", 0⟩],
           FSObject.archive "arc" [⟨"m", 0⟩]] ["d"] ["u"] none 2).2
          = Except.ok (5, none)
        rw [hwalk]
        simp [totalFilesAux])
  · exact (claim6_counter_consistency
      ⟨fun _ => true, fun _ => true, fun _ => 0, fun _ => true, fun _ => true,
       fun _ _ => true, fun _ _ => MemberLookup.found 0, fun _ _ => true,
       fun _ => true, fun _ => true⟩
      ⟨["d", "app"], ["d"], ["u"]⟩
      ⟨"all", []⟩ ["d"] ["u"] none 3).2 "arc" [⟨"m", 0⟩] ["d", "arc.hed"]
      ["d", "arc.dat"] ["u"] 4 (by rfl)

/-! # Claim C7 -/

/-- C7: on every successfully completed per-archive run, if some member was
rewritten (`add_file` appears in the trace) then the trace ends with exactly
one `finalize` followed directly by exactly one `defrag`, neither appearing
earlier; if no member was rewritten, neither `finalize` nor `defrag` appears
at all. -/
theorem claim7_finalize_defrag (env : FileEnv) (an : String) (fs : List MFile)
    (hed dat : RPath) (net : Url) (c n : Nat)
    (h : (check_patches_archive env an fs hed dat net c).2 = Except.ok n) :
    ((check_patches_archive env an fs hed dat net c).1.any isAddFileEv = true →
      ∃ pre, (check_patches_archive env an fs hed dat net c).1
          = pre ++ [Ev.finalize hed, Ev.defrag hed]
        ∧ pre.any isFinalizeEv = false ∧ pre.any isDefragEv = false
        ∧ pre.any isAddFileEv = true)
    ∧ ((check_patches_archive env an fs hed dat net c).1.any isAddFileEv = false →
      (check_patches_archive env an fs hed dat net c).1.any isFinalizeEv = false
        ∧ (check_patches_archive env an fs hed dat net c).1.any isDefragEv = false) := by
  by_cases ho : env.openOk dat hed
  · rcases hl : archiveLoop env an hed net fs c false with ⟨evs, r⟩
    have hfin : evs.any isFinalizeEv = false := by
      have := (archiveLoop_spec env an hed net fs c false).1.1
      rw [hl] at this
      simpa using this
    have hdfr : evs.any isDefragEv = false := by
      have := (archiveLoop_spec env an hed net fs c false).1.2
      rw [hl] at this
      simpa using this
    cases r with
    | error e =>
      have e1 : check_patches_archive env an fs hed dat net c = (evs, Except.error e) := by
        simp [check_patches_archive, ho, hl]
      rw [e1] at h
      simp at h
    | ok pr =>
      obtain ⟨n', d⟩ := pr
      have hd : d = evs.any isAddFileEv := by
        have := ((archiveLoop_spec env an hed net fs c false).2 n' d (by rw [hl])).1
        rw [hl] at this
        simpa using this
      cases d with
      | false =>
        have e1 : check_patches_archive env an fs hed dat net c = (evs, Except.ok n') := by
          simp [check_patches_archive, ho, hl]
        rw [e1]
        constructor
        · intro ha
          simp only [] at ha
          rw [← hd] at ha
          simp at ha
        · intro _
          exact ⟨hfin, hdfr⟩
      | true =>
        by_cases hf : env.finalizeOk hed
        · by_cases hdf : env.defragOk hed
          · have e1 : check_patches_archive env an fs hed dat net c
                = (evs ++ [Ev.finalize hed, Ev.defrag hed], Except.ok n') := by
              simp [check_patches_archive, ho, hl, hf, hdf]
            rw [e1]
            constructor
            · intro _
              exact ⟨evs, rfl, hfin, hdfr, hd.symm⟩
            · intro ha
              simp only [List.any_append, List.any_cons, List.any_nil,
                isAddFileEv] at ha
              rw [← hd] at ha
              simp at ha
          · have e1 : check_patches_archive env an fs hed dat net c
                = (evs ++ [Ev.finalize hed, Ev.defrag hed],
                   Except.error ("Couldn't defrag archive " ++ an)) := by
              simp [check_patches_archive, ho, hl, hf, hdf]
            rw [e1] at h
            simp at h
        · have e1 : check_patches_archive env an fs hed dat net c
              = (evs ++ [Ev.finalize hed],
                 Except.error ("Couldn't finalize archive " ++ an)) := by
            simp [check_patches_archive, ho, hl, hf]
          rw [e1] at h
          simp at h
  · have e1 : (check_patches_archive env an fs hed dat net c).2
        = Except.error ("Couldn't open archive " ++ an) := by
      simp [check_patches_archive, ho]
    rw [e1] at h
    simp at h

/-- Witness for C7: a single absent member gets rewritten, and the trace ends
with exactly one `finalize` then one `defrag`. -/
theorem claim7_witness :
    ∃ pre, (check_patches_archive
        ⟨fun _ => true, fun _ => true, fun _ => 0, fun _ => true, fun _ => true,
         fun _ _ => true, fun _ _ => MemberLookup.absent, fun _ _ => true,
         fun _ => true, fun _ => true⟩
        "arc" [⟨"m", 7⟩] ["d", "arc.hed"] ["d", "arc.dat"] ["u"] 0).1
        = pre ++ [Ev.finalize ["d", "arc.hed"], Ev.defrag ["d", "arc.hed"]]
      ∧ pre.any isFinalizeEv = false ∧ pre.any isDefragEv = false
      ∧ pre.any isAddFileEv = true :=
  (claim7_finalize_defrag
    ⟨fun _ => true, fun _ => true, fun _ => 0, fun _ => true, fun _ => true,
     fun _ _ => true, fun _ _ => MemberLookup.absent, fun _ _ => true,
     fun _ => true, fun _ => true⟩
    "arc" [⟨"m", 7⟩] ["d", "arc.hed"] ["d", "arc.dat"] ["u"] 0 1 (by rfl)).1 (by rfl)

/-! # Claim C5 -/

/-- C5: idempotence of reconcile's writes.  When every File leaf exists on
disk with the declared digest and every archive member is present with the
declared digest, the walk performs no effect at all — the trace is empty, so
there are zero file writes, zero `add_file` insertions and no
`finalize`/`defrag` — and it succeeds, advancing the counter by the leaf
count and leaving `updated_patcher` unchanged.  A second run over the same
unchanged disk therefore also writes nothing. -/
theorem claim5_idempotence (env : FileEnv) (w : Worker) (dir : Directory)
    (disk_dir : RPath) (net_path : Url) (up : Option RPath) (c : Nat)
    (hw : w.selfExe ≠ [])
    (hmatch : allMatchAux env dir.children disk_dir = true) :
    check_patches_dir env w dir disk_dir net_path up c
      = ([], Except.ok (c + get_total_files_in_patch dir, up)) := by
  exact walk_all_match env w hw dir.children disk_dir net_path up c hmatch
/-- Witness for C5: a concrete fully-matching disk state produces the empty
trace and the exact leaf count. -/
theorem claim5_witness :
    check_patches_dir
        ⟨fun _ => true, fun _ => true, fun _ => 0, fun _ => true, fun _ => true,
         fun _ _ => true, fun _ _ => MemberLookup.found 0, fun _ _ => true,
         fun _ => true, fun _ => true⟩
        ⟨["d", "app"], ["d"], ["u"]⟩
        ⟨"all", [FSObject.file ⟨"a", 0⟩,
                 FSObject.directory "sub" [FSObject.file ⟨"b", 0⟩],
                 FSObject.archive "arc" [⟨"m", 0⟩]]⟩
        ["d"] ["u"] none 0
      = ([], Except.ok (0 + get_total_files_in_patch
          ⟨"all", [FSObject.file ⟨"a", 0⟩,
                   FSObject.directory "sub" [FSObject.file ⟨"b", 0⟩],
                   FSObject.archive "arc" [⟨"m", 0⟩]]⟩, none)) :=
  claim5_idempotence
    ⟨fun _ => true, fun _ => true, fun _ => 0, fun _ => true, fun _ => true,
     fun _ _ => true, fun _ _ => MemberLookup.found 0, fun _ _ => true,
     fun _ => true, fun _ => true⟩
    ⟨["d", "app"], ["d"], ["u"]⟩
    ⟨"all", [FSObject.file ⟨"a", 0⟩,
             FSObject.directory "sub" [FSObject.file ⟨"b", 0⟩],
             FSObject.archive "arc" [⟨"m", 0⟩]]⟩
    ["d"] ["u"] none 0 (by simp)
    (by simp [allMatchAux, membersMatch, rustWithExtension, rustFileStem, splitAtLastDot])

/-! # Claim C8 -/

/-- A path that escapes the extraction root is refused by the zip library's
depth scan. -/
lemma escapes_enclosed : ∀ (p : List PComp) (d : Nat),
    escapesFrom d p = true → enclosedDepthGo d p = none := by
  intro p
  induction p with
  | nil => intro d h; simp [escapesFrom] at h
  | cons c rest ih =>
    intro d h
    cases c with
    | root => simp [enclosedDepthGo]
    | parent =>
      cases d with
      | zero => simp [enclosedDepthGo]
      | succ d' =>
        simp only [escapesFrom] at h
        simp only [enclosedDepthGo]
        exact ih d' h
    | cur =>
      simp only [escapesFrom] at h
      simp only [enclosedDepthGo]
      exact ih d h
    | normal s =>
      simp only [escapesFrom] at h
      simp only [enclosedDepthGo]
      exact ih (d + 1) h

/-- C8: every ZIP member whose declared path escapes `self_dir` — an absolute
path, or `..` traversal climbing above the extraction root — is rejected by
base-game extraction: the member fails with the invalid-path error and its
trace is empty, so nothing is written anywhere, inside or outside
`self_dir`. -/
theorem claim8_safe_extraction (env : ZipEnv) (self_dir : RPath) (m : ZipMember)
    (h : escapesFrom 0 m.path = true) :
    unpack_member env self_dir m = ([], Except.error "Invalid file path") := by
  have hnone := escapes_enclosed m.path 0 h
  simp [unpack_member, enclosed_name, hnone]

/-- Witness for C8: the member `../x` is rejected with an empty trace. -/
theorem claim8_witness :
    unpack_member ⟨fun _ => true, fun _ => true, fun _ => true⟩ ["d"]
        ⟨[PComp.parent, PComp.normal "x"], false⟩
      = ([], Except.error "Invalid file path") :=
  claim8_safe_extraction ⟨fun _ => true, fun _ => true, fun _ => true⟩ ["d"]
    ⟨[PComp.parent, PComp.normal "x"], false⟩ (by rfl)
